import Mathlib

/-!
# A shallow embedding of `igo.go` (lesiw/igo)

`igo` is a fake Go REPL: it grows one Go source file, reruns the whole
program after every input line, and hides the output that was already
shown.  This file embeds the program's functions over `List Char`
(Go strings are UTF-8; `for i, r := range s` yields runes together with
their *byte* offsets, so byte widths are modelled explicitly) and
`List Nat` (raw bytes, for the file contents written by `session.write`).

External effects (the `go` toolchain, `imports.Process`, shell commands,
stdin) are modelled as oracles: each call consumes the next element of a
result list, so theorems quantify over every possible toolchain
behaviour.
-/

namespace Igo

/-- Number of bytes in the UTF-8 encoding of a rune.  Go's
`for i, r := range s` advances the byte index `i` by this amount. -/
def runeByteLen (c : Char) : Nat :=
  if c.toNat < 0x80 then 1
  else if c.toNat < 0x800 then 2
  else if c.toNat < 0x10000 then 3
  else 4

/-- UTF-8 encoding of a rune, as bytes.  Matches what Go's
`strings.Builder.WriteString` / `bytes.Buffer.WriteString` append. -/
def utf8Bytes (c : Char) : List Nat :=
  let n := c.toNat
  if n < 0x80 then [n]
  else if n < 0x800 then [0xC0 + n / 64, 0x80 + n % 64]
  else if n < 0x10000 then
    [0xE0 + n / 4096, 0x80 + n / 64 % 64, 0x80 + n % 64]
  else
    [0xF0 + n / 262144, 0x80 + n / 4096 % 64, 0x80 + n / 64 % 64,
      0x80 + n % 64]

/-- UTF-8 bytes of a whole string. -/
def strBytes (s : List Char) : List Nat := (s.map utf8Bytes).flatten

/-- Byte length of a string (Go's `len(s)`). -/
def byteLen (s : List Char) : Nat := (s.map runeByteLen).sum

/-- Whitespace class of Go's `unicode.IsSpace`, as used by
`strings.TrimSpace`: tab, newline, vertical tab, form feed, carriage
return, space, NEL, NBSP, plus the White_Space code points above
Latin-1 (Ogham space mark, the U+2000 range, line/paragraph
separators, narrow NBSP, medium mathematical space, ideographic
space). -/
def isUniSpace (c : Char) : Bool :=
  c = ' ' || c = '\t' || c = '\n' || c = '\x0b' || c = '\x0c' ||
    c = '\x0d' || c = '\x85' || c = '\xa0' || c = '\u1680' ||
    (0x2000 ≤ c.toNat && c.toNat ≤ 0x200a) || c = '\u2028' ||
    c = '\u2029' || c = '\u202f' || c = '\u205f' || c = '\u3000'

/-- Go `strings.TrimSpace`: drop leading and trailing whitespace. -/
def trimSpace (s : List Char) : List Char :=
  ((s.dropWhile isUniSpace).reverse.dropWhile isUniSpace).reverse

/-- Go `strings.TrimSuffix(s, "\n")`: remove one trailing newline if
present. -/
def trimSuffixNL (s : List Char) : List Char :=
  if s.getLast? = some '\n' then s.dropLast else s

/-- Go `strings.Split(s, "\n")` (also `strings.SplitSeq`): the pieces
between newline characters; always at least one piece. -/
def splitNL : List Char → List (List Char)
  | [] => [[]]
  | c :: rest =>
    if c = '\n' then [] :: splitNL rest
    else
      match splitNL rest with
      | [] => [[c]]
      | l :: ls => (c :: l) :: ls

/-- Go `strings.Count(s, "\n")`. -/
def countNL (s : List Char) : Nat := s.countP (· = '\n')

/-- The sentinel that the spliced `println` emits, followed by the
newline `println` appends: the constant `eof` in `newLines`
(`"\x00igo:EOF\n"`, nine one-byte runes). -/
def eofMark : List Char := '\x00' :: ('i' :: 'g' :: 'o' :: ':' :: 'E' :: 'O' :: 'F' :: '\n' :: [])

/-- The byte-offset scan at the top of `newLines`: starting from rune
byte-offset `i` with `count` newlines already seen, return the byte
offset of the first rune reached once `count ≥ frm`, or the total byte
length when the loop runs off the end (Go: `start := len(output)` is
never overwritten). -/
def startScan (frm : Nat) : Nat → Nat → List Char → Nat
  | _, i, [] => i
  | count, i, c :: rest =>
    if frm ≤ count then i
    else startScan frm (if c = '\n' then count + 1 else count)
      (i + runeByteLen c) rest

/-- Go `strings.Index(s, pat)` restricted to an all-ASCII `pat`,
returning the *byte* offset of the first occurrence (UTF-8 never embeds
an ASCII byte inside a multi-byte rune, so a byte-level occurrence of an
ASCII pattern always sits on a rune boundary). -/
def idxFrom (pat : List Char) : List Char → Nat → Option Nat
  | [], i => if pat.isPrefixOf ([] : List Char) then some i else none
  | c :: rest, i =>
    if pat.isPrefixOf (c :: rest) then some i
    else idxFrom pat rest (i + runeByteLen c)

/-- `session.newLines`, as a function of the shown-line counter `frm`
and the run output.  Returns `none` where the Go code panics: the byte
offsets `start`/`end` are applied to the *rune* slice `[]rune(output)`,
and Go slicing `[]rune(output)[start:end]` panics as soon as `end`
exceeds the rune count (always `start ≤ end ≤ len(output)` in bytes).
Otherwise returns the extracted delta together with the new value of
`s.rem`. -/
def newLinesFn (frm : Nat) (output : List Char) :
    Option (List Char × List Char) :=
  let start := startScan frm 0 0 output
  let stop :=
    match idxFrom eofMark output 0 with
    | none => byteLen output
    | some k => if k < start then byteLen output else k
  if stop ≤ output.length then
    some ((output.drop start).take (stop - start),
      if stop + 9 < output.length then
        trimSuffixNL (output.drop (stop + 9)) ++ ['\n']
      else [])
  else none

/-- RE2's Perl whitespace class `\s` (tab, newline, form feed, carriage
return, space), used by the `\s*` in the `builderr` pattern. -/
def isSpaceRE (c : Char) : Bool :=
  c = '\t' || c = '\n' || c = '\x0c' || c = '\x0d' || c = ' '

/-- ASCII digit, RE2's `\d`. -/
def isDigitCh (c : Char) : Bool := '0' ≤ c && c ≤ '9'

/-- `builderr.FindStringSubmatch` on one line of toolchain output, for
the anchored pattern of `igo.go`
(dot-slash, a nonempty run of non-space non-colon characters, colon,
digits, colon, digits, colon, optional whitespace, then a nonempty
message): returns the fourth capture group (the message) when the whole
line matches.  Each quantifier's extent is forced (the character class
excludes the delimiter that follows), except that when everything after
the third colon is whitespace, greedy `\s*` backs off one character so
the final `(.+)` captures exactly the last character. -/
def builderrMsg (line : List Char) : Option (List Char) :=
  match line with
  | '.' :: '/' :: r1 =>
    let p := r1.takeWhile (fun c => !(isSpaceRE c || c = ':'))
    if p = [] then none else
    match r1.dropWhile (fun c => !(isSpaceRE c || c = ':')) with
    | ':' :: r3 =>
      if r3.takeWhile isDigitCh = [] then none else
      match r3.dropWhile isDigitCh with
      | ':' :: r5 =>
        if r5.takeWhile isDigitCh = [] then none else
        match r5.dropWhile isDigitCh with
        | ':' :: r7 =>
          let msg := r7.dropWhile isSpaceRE
          if msg ≠ [] then some msg
          else
            match r7.getLast? with
            | some c => some [c]
            | none => none
        | _ => none
      | _ => none
    | _ => none
  | _ => none

/-- The constant `unused` of `igo.go`. -/
def unusedMark : List Char := ("declared and not used: ").toList

/-- The fix text one output line contributes inside `exec`'s diagnostic
scan: `"_ = " + m[4][len(unused):] + "\n"` when the line matches
`builderr` and the message carries the unused-binding marker, nothing
otherwise. -/
def fixOfLine (line : List Char) : List Char :=
  match builderrMsg line with
  | some m =>
    if unusedMark.isPrefixOf m then
      ('_' :: ' ' :: '=' :: ' ' :: []) ++ m.drop unusedMark.length ++ ['\n']
    else []
  | none => []

/-- All fixes one failed run's output contributes, in line order
(`exec` appends to the `fixes` builder while ranging over
`strings.SplitSeq(output, "\n")`); `fixed` is true iff this is
nonempty. -/
def collectFixes (output : List Char) : List Char :=
  ((splitNL output).map fixOfLine).flatten

/-- Go `lines[len(lines)-1]`; `strings.Split` never returns an empty
slice. -/
def lastLine (ls : List (List Char)) : List Char := ls.getLast?.getD []

/-- The runtime-failure marker `exec` looks for on the last output
line. -/
def exitStatusMark : List Char := ("exit status ").toList

/-- The REPL session state (`type session`), restricted to the fields
the algorithms read and write: `src`/`off` (skeleton bytes and splice
offset, both fixed after startup), `frm` (lines already shown), `usr`
(accepted user code, as the bytes of `bytes.Buffer`), `rem` (output
after the sentinel, flushed at quit).  `dir` and `pth` are paths of the
external filesystem and are not part of the state the claims are
about. -/
structure GoSess where
  src : List Nat
  off : Nat
  frm : Nat
  usr : List Nat
  rem : List Char
deriving DecidableEq, Repr

/-- One answer of the external toolchain for one assemble-run
iteration: `imports.Process` failed with / without the `found 'EOF'`
substring, or `go run` finished with its combined output and a flag
telling whether it reported failure. -/
inductive ToolRes where
  | importsEOF : ToolRes
  | importsErr (msg : List Char) : ToolRes
  | runRes (failed : Bool) (output : List Char) : ToolRes
deriving DecidableEq, Repr

/-- The outcome of `session.exec`: which error value it returned (or
success with the text passed to `fmt.Println`, empty when nothing was
printed), plus `panicked` for the rune-slice panic inside `newLines`
and `noRes` when the model's toolchain oracle ran out of answers while
the fix loop wanted another rerun. -/
inductive ExecRes where
  | errEOF : ExecRes
  | errImports (msg : List Char) : ExecRes
  | errRuntime (msg : List Char) : ExecRes
  | errCompile (msg : List Char) : ExecRes
  | ok (printed : List Char) : ExecRes
  | panicked : ExecRes
  | noRes : ExecRes
deriving DecidableEq, Repr

/-- State of the file handle inside `session.write`: the closure `w`
skips all writes once an error happened. -/
structure FileW where
  content : List Nat
  err : Bool

/-- One `w(b)` call of `session.write` (the underlying `f.Write` is
modelled as succeeding; disk errors are outside the model). -/
def wStep (f : FileW) (b : List Nat) : FileW :=
  if f.err then f else { f with content := f.content ++ b }

/-- The bytes of the spliced sentinel print statement, the raw-string
literal written by `session.write`. -/
def sentinelStmt : List Nat := strBytes ("println(\"\\000igo:EOF\")").toList

/-- `session.write`: `os.Create` truncates the file, then six `w`
calls emit skeleton prefix, newline, accepted user code, the argument
(candidate plus fixes), the sentinel print, and the skeleton suffix. -/
def writeFile (src : List Nat) (off : Nat) (usr : List Nat)
    (inputB : List Nat) : List Nat :=
  (wStep (wStep (wStep (wStep (wStep (wStep ⟨[], false⟩
    (src.take off)) [10]) usr) inputB) sentinelStmt) (src.drop off)).content

/-- Result of `session.exec` in the model: the returned value, the
session afterwards, the unconsumed toolchain answers, and the file
contents passed to `session.write`, in order. -/
structure ExecOut where
  res : ExecRes
  sess : GoSess
  rest : List ToolRes
  writes : List (List Nat)
deriving DecidableEq, Repr

/-- The `rerun` loop of `session.exec`, one oracle answer per
iteration.  `inp` is the statement already carrying the newline
appended at the top of `exec`; `fixes` is the accumulated fix builder.
On a failed run it returns the runtime error (through `newLines`, which
also overwrites `rem`) when the last line carries the exit-status
marker; otherwise it collects unused-binding fixes and reruns when it
found any, and returns the compile error verbatim when it found none.
On a successful run it appends `inp` to the user buffer, extracts the
delta, and advances `frm`. -/
def execLoop : GoSess → List Char → List Char → List ToolRes → ExecOut
  | s, inp, fixes, [] =>
    ⟨.noRes, s, [], [writeFile s.src s.off s.usr (strBytes (inp ++ fixes))]⟩
  | s, inp, fixes, r :: rs =>
    let wr := writeFile s.src s.off s.usr (strBytes (inp ++ fixes))
    match r with
    | .importsEOF => ⟨.errEOF, s, rs, [wr]⟩
    | .importsErr m => ⟨.errImports m, s, rs, [wr]⟩
    | .runRes true output =>
      if exitStatusMark.isPrefixOf
          (lastLine (splitNL (trimSuffixNL output))) then
        match newLinesFn s.frm output with
        | none => ⟨.panicked, s, rs, [wr]⟩
        | some dr =>
          ⟨.errRuntime (trimSuffixNL dr.1), { s with rem := dr.2 }, rs, [wr]⟩
      else
        let nf := collectFixes output
        if nf = [] then ⟨.errCompile (trimSuffixNL output), s, rs, [wr]⟩
        else
          let k := execLoop s inp (fixes ++ nf) rs
          ⟨k.res, k.sess, k.rest, wr :: k.writes⟩
    | .runRes false output =>
      let s1 := { s with usr := s.usr ++ strBytes inp }
      match newLinesFn s.frm output with
      | none => ⟨.panicked, s1, rs, [wr]⟩
      | some dr =>
        ⟨.ok (trimSuffixNL dr.1),
          { s1 with rem := dr.2, frm := s.frm + countNL dr.1 }, rs, [wr]⟩

/-- `session.exec` proper: appends the newline to the input and enters
the rerun loop with an empty fix builder. -/
def execM (s : GoSess) (input : List Char) (rs : List ToolRes) : ExecOut :=
  execLoop s (input ++ ['\n']) [] rs

/-- One observable action of `session.run`: the prompt, a stdout print,
or a stderr print. -/
inductive Ev where
  | prompt : Ev
  | out (t : List Char) : Ev
  | errMsg (t : List Char) : Ev
deriving DecidableEq, Repr

/-- Outcome of the shell branch for one `:`-prefixed line, as an oracle
value covering every behaviour of `shlex.Split` plus
`cmd.CombinedOutput`: tokenization failure or empty argv, a run that
returned `exec.ExitError`, a spawn failure, or success (whose captured
output the code never prints). -/
inductive ShellRes where
  | badCmd (m : List Char) : ShellRes
  | exitErr (output : List Char) : ShellRes
  | spawnErr (m : List Char) : ShellRes
  | okRun (output : List Char) : ShellRes
deriving DecidableEq, Repr

/-- What the shell branch prints for one oracle answer. -/
def shellEvents : ShellRes → List Ev
  | .badCmd m => [.errMsg (("bad command: ").toList ++ m)]
  | .exitErr output =>
    [.errMsg (("command failed: ").toList ++ trimSuffixNL output ++ ['\n'])]
  | .spawnErr m =>
    [.errMsg (("command failed: ").toList ++ m ++ ['\n'])]
  | .okRun _ => []

/-- How `session.run` ended: a quit token (returns `nil`), a failed
read (stdin exhausted — `bufio` returns `io.EOF` and `run` returns the
wrapped error), a model-side oracle exhaustion, or a Go panic. -/
inductive RunOut where
  | quit : RunOut
  | readErr : RunOut
  | stuck : RunOut
  | crashed : RunOut
deriving DecidableEq, Repr

/-- The error text `session.run` prints for a non-`errEOF` failure of
`exec` (`fmt.Fprintln(os.Stderr, err)`). -/
def renderErr : ExecRes → List Char
  | .errImports m => ("failed to process imports: ").toList ++ m
  | .errRuntime m => m
  | .errCompile m => m
  | _ => []

/-- The body of `session.run` from the `read:` label onwards.  `pb`
records whether a prompt is pending (printed at the top of the `for`
iteration; the `goto read` after `errEOF` skips it), `line` is the
pending multi-line statement.  Each step consumes one stdin line;
`trimSpace` runs first, then the quit check, then the shell branch
(which resets `line` via `continue`), then `line += input` and
`exec`. -/
def readIter : GoSess → Bool → List Char → List (List Char) →
    List ToolRes → List ShellRes → RunOut × GoSess × List Ev
  | s, pb, _, [], _, _ =>
    (.readErr, s, if pb then [Ev.prompt] else [])
  | s, pb, line, inp :: rest, ts, hs =>
    let pre : List Ev := if pb then [Ev.prompt] else []
    let input := trimSpace inp
    if input = (".quit").toList ∨ input = (".exit").toList then
      (.quit, s, pre ++ [Ev.out s.rem])
    else if input.head? = some ':' then
      match hs with
      | [] => (.stuck, s, pre)
      | h :: hs' =>
        let k := readIter s true [] rest ts hs'
        (k.1, k.2.1, pre ++ shellEvents h ++ k.2.2)
    else
      let line' := line ++ input
      let e := execM s line' ts
      match e.res with
      | .errEOF =>
        let k := readIter e.sess false line' rest e.rest hs
        (k.1, k.2.1, pre ++ k.2.2)
      | .ok printed =>
        let evs := if printed = [] then [] else [Ev.out (printed ++ ['\n'])]
        let k := readIter e.sess true [] rest e.rest hs
        (k.1, k.2.1, pre ++ evs ++ k.2.2)
      | .panicked => (.crashed, e.sess, pre)
      | .noRes => (.stuck, e.sess, pre)
      | other =>
        let k := readIter e.sess true [] rest e.rest hs
        (k.1, k.2.1, pre ++ [Ev.errMsg (renderErr other)] ++ k.2.2)

/-- `session.run` from the top: session loop over the stdin lines with
a pending prompt and an empty statement. -/
def runSession (s : GoSess) (stdin : List (List Char)) (ts : List ToolRes)
    (hs : List ShellRes) : RunOut × GoSess × List Ev :=
  readIter s true [] stdin ts hs

/-- Exit status of `main` given how `run()` ended: `defers.Exit(1)`
when `run` returned an error, normal exit 0 otherwise.  `quit` is the
only `nil` return of `session.run`; a read failure (including plain
end-of-input) is an error return.  (`stuck`/`crashed` are model
artifacts with no exit status.) -/
def goExit : RunOut → Option Nat
  | .quit => some 0
  | .readErr => some 1
  | _ => none

/-- Exit status of the whole process: the startup paths of `run()`
(temp dir, `go mod init`, reading or parsing the named file) all return
an error, hence status 1; otherwise the loop decides. -/
def mainExitCode (startupFail : Bool) (o : RunOut) : Option Nat :=
  if startupFail then some 1 else goExit o

/-! ## Spec-side descriptions of the Output Delta Extractor

`specStart`/`specDelta` transcribe the spec's words for comparison with
the source-derived `newLinesFn`: the delta begins at the first
character after `shownLineCount` newlines have been seen, and ends at
the first occurrence of the sentinel *at or after* that start position
(to end of output when there is none after the start).
`amendedStop`/`amendedDelta`/`amendedRem` state what the code actually
computes on single-byte outputs: the sentinel occurrence used is the
first one in the *entire* output, kept only when it is at or after the
start. -/

/-- Character index of the first position at which `count` newlines
have already been seen (the length of the list when that never
happens). -/
def charStart (frm : Nat) : Nat → List Char → Nat
  | _, [] => 0
  | count, c :: rest =>
    if frm ≤ count then 0
    else 1 + charStart frm (if c = '\n' then count + 1 else count) rest

/-- Start of the delta, in characters. -/
def specStart (frm : Nat) (output : List Char) : Nat :=
  charStart frm 0 output

/-- Character index of the first occurrence of `pat`. -/
def firstOcc (pat : List Char) : List Char → Option Nat
  | [] => if pat.isPrefixOf ([] : List Char) then some 0 else none
  | c :: rest =>
    if pat.isPrefixOf (c :: rest) then some 0
    else (firstOcc pat rest).map (· + 1)

/-- The delta as the spec describes it: from the start position to the
first sentinel occurrence at or after the start, else to end of
output. -/
def specDelta (frm : Nat) (output : List Char) : List Char :=
  let start := specStart frm output
  match firstOcc eofMark (output.drop start) with
  | some k => (output.drop start).take k
  | none => output.drop start

/-- Where the code's delta ends on single-byte outputs: the first
sentinel occurrence in the whole output when that is at or after the
start, otherwise end of output. -/
def amendedStop (frm : Nat) (output : List Char) : Nat :=
  match firstOcc eofMark output with
  | none => output.length
  | some k => if k < specStart frm output then output.length else k

/-- The delta the code extracts on single-byte outputs. -/
def amendedDelta (frm : Nat) (output : List Char) : List Char :=
  (output.drop (specStart frm output)).take
    (amendedStop frm output - specStart frm output)

/-- The trailing remainder the code stores on single-byte outputs. -/
def amendedRem (frm : Nat) (output : List Char) : List Char :=
  if amendedStop frm output + 9 < output.length then
    trimSuffixNL (output.drop (amendedStop frm output + 9)) ++ ['\n']
  else []

/-- Outputs made of one-byte runes only: on these, Go's byte offsets
coincide with rune indices. -/
def allASCII (s : List Char) : Prop := ∀ c ∈ s, c.toNat < 128

instance (s : List Char) : Decidable (allASCII s) :=
  inferInstanceAs (Decidable (∀ c ∈ s, c.toNat < 128))

theorem runeByteLen_ascii {c : Char} (h : c.toNat < 128) :
    runeByteLen c = 1 := by
  simp [runeByteLen, h]

theorem byteLen_ascii {s : List Char} (h : allASCII s) :
    byteLen s = s.length := by
  induction s with
  | nil => rfl
  | cons c rest ih =>
    have hc : c.toNat < 128 := h c (List.mem_cons_self c rest)
    have hrest : allASCII rest := fun x hx => h x (List.mem_cons_of_mem c hx)
    have ihr := ih hrest
    simp [byteLen, runeByteLen_ascii hc] at ihr ⊢
    omega

theorem startScan_ascii {s : List Char} (h : allASCII s)
    (frm count i : Nat) :
    startScan frm count i s = i + charStart frm count s := by
  induction s generalizing count i with
  | nil => simp [startScan, charStart]
  | cons c rest ih =>
    have hrest : allASCII rest := fun x hx => h x (List.mem_cons_of_mem c hx)
    have hc : c.toNat < 128 := h c (List.mem_cons_self c rest)
    by_cases hfc : frm ≤ count
    · simp [startScan, charStart, hfc]
    · simp [startScan, charStart, hfc, runeByteLen_ascii hc, ih hrest]
      omega

theorem idxFrom_ascii {s : List Char} (h : allASCII s)
    (pat : List Char) (hpat : pat ≠ []) (i : Nat) :
    idxFrom pat s i = (firstOcc pat s).map (· + i) := by
  induction s generalizing i with
  | nil =>
    have : ¬ pat.isPrefixOf ([] : List Char) := by
      cases pat with
      | nil => exact absurd rfl hpat
      | cons a l => simp [List.isPrefixOf]
    simp [idxFrom, firstOcc, this]
  | cons c rest ih =>
    have hrest : allASCII rest := fun x hx => h x (List.mem_cons_of_mem c hx)
    have hc : c.toNat < 128 := h c (List.mem_cons_self c rest)
    by_cases hp : pat.isPrefixOf (c :: rest)
    · simp [idxFrom, firstOcc, hp]
    · simp [idxFrom, firstOcc, hp, runeByteLen_ascii hc, ih hrest]
      cases firstOcc pat rest with
      | none => simp
      | some k => simp [Nat.add_comm, Nat.add_assoc, Nat.add_left_comm]

theorem firstOcc_le_length {pat s : List Char} {k : Nat}
    (h : firstOcc pat s = some k) : k ≤ s.length := by
  induction s generalizing k with
  | nil =>
    by_cases hp : pat.isPrefixOf ([] : List Char)
    · simp [firstOcc, hp] at h
      omega
    · simp [firstOcc, hp] at h
  | cons c rest ih =>
    by_cases hp : pat.isPrefixOf (c :: rest)
    · simp [firstOcc, hp] at h
      omega
    · simp [firstOcc, hp] at h
      cases hf : firstOcc pat rest with
      | none => simp [hf] at h
      | some m =>
        simp [hf] at h
        have := ih hf
        simp [List.length_cons]
        omega

/-- On single-byte outputs `newLines` never panics and computes the
amended delta and remainder. -/
theorem newLinesFn_ascii {output : List Char} (h : allASCII output)
    (frm : Nat) :
    newLinesFn frm output =
      some (amendedDelta frm output, amendedRem frm output) := by
  have hpat : eofMark ≠ [] := by simp [eofMark]
  have hstart : startScan frm 0 0 output = specStart frm output := by
    simpa using startScan_ascii h frm 0 0
  have hidx : idxFrom eofMark output 0 =
      (firstOcc eofMark output).map (· + 0) := idxFrom_ascii h eofMark hpat 0
  have hbl : byteLen output = output.length := byteLen_ascii h
  unfold newLinesFn
  cases hf : firstOcc eofMark output with
  | none =>
    have hidx0 : idxFrom eofMark output 0 = none := by rw [hidx, hf]; rfl
    simp [hidx0, hstart, hbl, amendedDelta, amendedRem, amendedStop, hf]
  | some k =>
    have hidx0 : idxFrom eofMark output 0 = some k := by rw [hidx, hf]; simp
    have hk : k ≤ output.length := firstOcc_le_length hf
    by_cases hks : k < specStart frm output
    · simp [hidx0, hstart, hbl, hks, amendedDelta, amendedRem, amendedStop,
        hf]
    · simp [hidx0, hstart, hbl, hks, hk, amendedDelta, amendedRem,
        amendedStop, hf]

/-! ## Structure of `exec` outcomes -/

/-- Which `exec` outcomes are error *returns* of the Go function
(`panicked` crashes instead of returning, `noRes` is oracle
exhaustion). -/
def isErrReturn : ExecRes → Bool
  | .errEOF => true
  | .errImports _ => true
  | .errRuntime _ => true
  | .errCompile _ => true
  | _ => false

/-- How the session after `exec` relates to the session before,
keyed by the outcome: the `errEOF` / imports-error / compile-error /
oracle-exhaustion outcomes leave it untouched; a runtime error only
overwrites `rem` (through the `newLines` call made to isolate the
error text); a success appends exactly the input to the user buffer
and updates `rem` and `frm`; on the panic the buffer may or may not
have been appended first. -/
def ExecShape (s : GoSess) (inp : List Char) (e : ExecOut) : Prop :=
  (e.sess = s ∧
    (e.res = ExecRes.errEOF ∨ (∃ m, e.res = ExecRes.errImports m) ∨
      (∃ m, e.res = ExecRes.errCompile m) ∨ e.res = ExecRes.noRes)) ∨
  ((∃ m, e.res = ExecRes.errRuntime m) ∧
    ∃ r, e.sess = { s with rem := r }) ∨
  (e.res = ExecRes.panicked ∧
    (e.sess = s ∨ e.sess = { s with usr := s.usr ++ strBytes inp })) ∨
  ((∃ p, e.res = ExecRes.ok p) ∧
    ∃ r f, e.sess =
      { s with usr := s.usr ++ strBytes inp, rem := r, frm := f })

theorem execLoop_shape (rs : List ToolRes) :
    ∀ (s : GoSess) (inp fixes : List Char),
      ExecShape s inp (execLoop s inp fixes rs) := by
  induction rs with
  | nil =>
    intro s inp fixes
    left
    simp [execLoop]
  | cons r rs ih =>
    intro s inp fixes
    cases r with
    | importsEOF =>
      left
      simp [execLoop]
    | importsErr m =>
      left
      simp [execLoop]
    | runRes failed output =>
      cases failed with
      | false =>
        cases hnl : newLinesFn s.frm output with
        | none =>
          right; right; left
          simp [execLoop, hnl]
        | some dr =>
          right; right; right
          refine ⟨⟨trimSuffixNL dr.1, ?_⟩, dr.2, s.frm + countNL dr.1, ?_⟩ <;>
            simp [execLoop, hnl]
      | true =>
        by_cases hx : exitStatusMark.isPrefixOf
            (lastLine (splitNL (trimSuffixNL output))) = true
        · cases hnl : newLinesFn s.frm output with
          | none =>
            right; right; left
            constructor
            · simp [execLoop, hx, hnl]
            · left
              simp [execLoop, hx, hnl]
          | some dr =>
            right; left
            exact ⟨⟨trimSuffixNL dr.1, by simp [execLoop, hx, hnl]⟩,
              dr.2, by simp [execLoop, hx, hnl]⟩
        · by_cases hnf : collectFixes output = []
          · left
            simp [execLoop, hx, hnf]
          · have hsh := ih s inp (fixes ++ collectFixes output)
            have hred : execLoop s inp fixes (ToolRes.runRes true output :: rs) =
                { execLoop s inp (fixes ++ collectFixes output) rs with
                  writes := writeFile s.src s.off s.usr
                      (strBytes (inp ++ fixes)) ::
                    (execLoop s inp (fixes ++ collectFixes output) rs).writes } := by
              simp [execLoop, hx, hnf]
            unfold ExecShape at hsh ⊢
            rw [hred]
            exact hsh

/-! ## Claim theorems -/

/-- C2: for every session state (skeleton bytes, insertion offset,
history) and every candidate plus fix statements, `session.write`
produces on `programPath` — starting from a truncated file — exactly
the concatenation of the skeleton prefix up to the insertion offset, a
newline, the history statements in insertion order, the candidate, the
fixes, the sentinel print statement, and the skeleton suffix. -/
theorem c2_program_assembler (src : List Nat) (off : Nat) (usr : List Nat)
    (hist : List (List Nat)) (cand fx : List Nat)
    (h : usr = hist.flatten) :
    writeFile src off usr (cand ++ fx) =
      src.take off ++ [10] ++ hist.flatten ++ cand ++ fx ++
        sentinelStmt ++ src.drop off := by
  simp [writeFile, wStep, h]

theorem c2_program_assembler_witness :
    writeFile [1, 2, 3] 1 ([[4], [5]].flatten) ([6] ++ [7]) =
      [1, 2, 3].take 1 ++ [10] ++ [[4], [5]].flatten ++ [6] ++ [7] ++
        sentinelStmt ++ [1, 2, 3].drop 1 :=
  c2_program_assembler [1, 2, 3] 1 ([[4], [5]].flatten) [[4], [5]] [6] [7] rfl

/-- C3: the user-code buffer (the history) only ever grows by the
accepted statement itself on a successful cycle, and every error
return of `exec` leaves the buffer and the shown-line counter exactly
as they were. -/
theorem c3_history_invariant (s : GoSess) (input : List Char)
    (rs : List ToolRes) :
    (isErrReturn (execM s input rs).res = true →
      (execM s input rs).sess.usr = s.usr ∧
      (execM s input rs).sess.frm = s.frm) ∧
    (∀ p, (execM s input rs).res = ExecRes.ok p →
      (execM s input rs).sess.usr = s.usr ++ strBytes (input ++ ['\n'])) := by
  have hsh := execLoop_shape rs s (input ++ ['\n']) []
  unfold ExecShape at hsh
  unfold execM at *
  rcases hsh with ⟨hs, hr⟩ | ⟨⟨m, hres⟩, r, hs⟩ | ⟨hres, hu⟩ |
    ⟨⟨p, hres⟩, r, f, hs⟩
  · refine ⟨fun _ => by rw [hs]; exact ⟨rfl, rfl⟩, fun p hp => ?_⟩
    rcases hr with hh | ⟨m, hh⟩ | ⟨m, hh⟩ | hh <;> rw [hp] at hh <;>
      simp at hh
  · refine ⟨fun _ => by rw [hs]; exact ⟨rfl, rfl⟩, fun p hp => ?_⟩
    rw [hp] at hres
    simp at hres
  · refine ⟨fun hE => ?_, fun p hp => ?_⟩
    · rw [hres] at hE
      simp [isErrReturn] at hE
    · rw [hp] at hres
      simp at hres
  · refine ⟨fun hE => ?_, fun q hq => by rw [hs]⟩
    rw [hres] at hE
    simp [isErrReturn] at hE

theorem c3_history_invariant_witness :
    ((execM ⟨[], 0, 0, [], []⟩ ('x' :: []) [ToolRes.importsEOF]).sess.usr =
        ([] : List Nat) ∧
      (execM ⟨[], 0, 0, [], []⟩ ('x' :: [])
        [ToolRes.importsEOF]).sess.frm = 0) ∧
    (execM ⟨[], 0, 0, [], []⟩ ('x' :: [])
        [ToolRes.runRes false (("\x00igo:EOF\n").toList)]).sess.usr =
      [] ++ strBytes ('x' :: [] ++ ['\n']) :=
  ⟨(c3_history_invariant ⟨[], 0, 0, [], []⟩ ('x' :: [])
      [ToolRes.importsEOF]).1 (by decide),
    (c3_history_invariant ⟨[], 0, 0, [], []⟩ ('x' :: [])
      [ToolRes.runRes false (("\x00igo:EOF\n").toList)]).2 [] (by decide)⟩

theorem head_colon_ne_quit {l : List Char} (h : l.head? = some ':') :
    l ≠ ('.' :: 'q' :: 'u' :: 'i' :: 't' :: []) ∧
      l ≠ ('.' :: 'e' :: 'x' :: 'i' :: 't' :: []) := by
  refine ⟨fun he => ?_, fun he => ?_⟩ <;> rw [he] at h <;>
    exact absurd h (by decide)

/-- C9: a shell-prefixed input line makes the loop continue on the very
same session value — every field (`src`, `off`, `frm`, `usr`, `rem`)
unchanged — whatever the tokenizer and the spawned command did; only
events are added. -/
theorem c9_shell_frame (s : GoSess) (pb : Bool) (line inp : List Char)
    (rest : List (List Char)) (ts : List ToolRes) (h : ShellRes)
    (hs : List ShellRes) (hc : (trimSpace inp).head? = some ':') :
    readIter s pb line (inp :: rest) ts (h :: hs) =
      ((readIter s true [] rest ts hs).1,
        (readIter s true [] rest ts hs).2.1,
        (if pb then [Ev.prompt] else []) ++ shellEvents h ++
          (readIter s true [] rest ts hs).2.2) := by
  have hq := head_colon_ne_quit hc
  simp [readIter, hq.1, hq.2, hc]

theorem c9_shell_frame_witness :
    readIter ⟨[], 0, 0, [], []⟩ true [] [(":true\n").toList] []
        [ShellRes.okRun []] =
      ((readIter ⟨[], 0, 0, [], []⟩ true [] [] [] []).1,
        (readIter ⟨[], 0, 0, [], []⟩ true [] [] [] []).2.1,
        (if true then [Ev.prompt] else []) ++ shellEvents (.okRun []) ++
          (readIter ⟨[], 0, 0, [], []⟩ true [] [] [] []).2.2) :=
  c9_shell_frame ⟨[], 0, 0, [], []⟩ true [] ((":true\n").toList) [] []
    (ShellRes.okRun []) [] (by decide)

/-- C10: `newLines` is not total — on an output containing multi-byte
runes it applies byte offsets to the rune slice and Go panics with a
slice-bounds failure; here the whole `exec` call on a failed run whose
output carries a multi-byte character crashes instead of reporting the
runtime error. -/
theorem c10_multibyte_panic :
    (execM ⟨[], 0, 0, [], []⟩ ('x' :: [])
      [ToolRes.runRes true (("é\nexit status 2\n").toList)]).res =
      ExecRes.panicked ∧
    newLinesFn 0 (("é").toList) = none :=
  ⟨rfl, rfl⟩

/-- C1 counterexample: when the sentinel's first occurrence lies
*before* the start position but another occurrence lies after it, the
code falls back to end-of-output instead of using the later
occurrence, so the returned delta differs from the spec's
at-or-after-start delta. -/
theorem c1_delta_cex :
    newLinesFn 1 (("\x00igo:EOF\na\n\x00igo:EOF\n").toList) =
      some ((("a\n\x00igo:EOF\n").toList), []) ∧
    specDelta 1 (("\x00igo:EOF\na\n\x00igo:EOF\n").toList) =
      ("a\n").toList ∧
    ("a\n\x00igo:EOF\n").toList ≠ ("a\n").toList :=
  ⟨by decide, by decide, by decide⟩

/-- C1 (amended): on outputs made of single-byte runes, the delta
begins at the first character after `frm` newlines have been seen and
ends at the first occurrence of the sentinel in the whole output when
that occurrence is at or after the start (end of output when the
sentinel is missing or its first occurrence precedes the start); a
successful run returns that delta (sans one trailing newline) and
advances `frm` by exactly the newlines inside the delta, storing the
post-sentinel remainder in `rem`. -/
theorem c1_delta_amended (s : GoSess) (inp fixes output : List Char)
    (rs : List ToolRes) (h : allASCII output) :
    newLinesFn s.frm output =
      some (amendedDelta s.frm output, amendedRem s.frm output) ∧
    (execLoop s inp fixes (ToolRes.runRes false output :: rs)).res =
      ExecRes.ok (trimSuffixNL (amendedDelta s.frm output)) ∧
    (execLoop s inp fixes (ToolRes.runRes false output :: rs)).sess.frm =
      s.frm + countNL (amendedDelta s.frm output) ∧
    (execLoop s inp fixes (ToolRes.runRes false output :: rs)).sess.rem =
      amendedRem s.frm output := by
  have hnl := newLinesFn_ascii h s.frm
  refine ⟨hnl, ?_, ?_, ?_⟩ <;> simp [execLoop, hnl]

theorem c1_delta_amended_witness :
    allASCII (("a\nb\n\x00igo:EOF\n").toList) ∧
    newLinesFn 1 (("a\nb\n\x00igo:EOF\n").toList) =
      some (amendedDelta 1 (("a\nb\n\x00igo:EOF\n").toList),
        amendedRem 1 (("a\nb\n\x00igo:EOF\n").toList)) :=
  ⟨by decide,
    (c1_delta_amended ⟨[], 0, 1, [], []⟩ [] [] (("a\nb\n\x00igo:EOF\n").toList)
      [] (by decide)).1⟩

/-- C4 counterexample: a runtime error of the executed program does
*not* leave `trailingRemainder` unchanged — the error text is isolated
through `newLines`, which overwrites `rem` (here clearing a previous
remainder because the failing run printed no sentinel). -/
theorem c4_runtime_rem_cex :
    (execM ⟨[], 0, 0, [], ('z' :: '\n' :: [])⟩ ('x' :: [])
      [ToolRes.runRes true (("boom\nexit status 1\n").toList)]).res =
      ExecRes.errRuntime (("boom\nexit status 1").toList) ∧
    (execM ⟨[], 0, 0, [], ('z' :: '\n' :: [])⟩ ('x' :: [])
      [ToolRes.runRes true (("boom\nexit status 1\n").toList)]).sess.rem =
      [] ∧
    ('z' :: '\n' :: []) ≠ ([] : List Char) :=
  ⟨by decide, by decide, by decide⟩

/-- C4 (amended): compile errors, imports failures and the
incomplete-statement signal leave the whole session unchanged; a
runtime error leaves history and the shown-line counter unchanged (but
may overwrite the trailing remainder); a shell-prefixed line leaves
the session the loop continues with unchanged. -/
theorem c4_reported_frame (s : GoSess) (input : List Char)
    (rs : List ToolRes) (pb : Bool) (line inp : List Char)
    (rest : List (List Char)) (ts : List ToolRes) (h : ShellRes)
    (hs : List ShellRes) (hc : (trimSpace inp).head? = some ':') :
    ((execM s input rs).res = ExecRes.errEOF ∨
      (∃ m, (execM s input rs).res = ExecRes.errImports m) ∨
      (∃ m, (execM s input rs).res = ExecRes.errCompile m) →
      (execM s input rs).sess = s) ∧
    (∀ m, (execM s input rs).res = ExecRes.errRuntime m →
      (execM s input rs).sess.usr = s.usr ∧
      (execM s input rs).sess.frm = s.frm) ∧
    (readIter s pb line (inp :: rest) ts (h :: hs)).2.1 =
      (readIter s true [] rest ts hs).2.1 := by
  have hsh := execLoop_shape rs s (input ++ ['\n']) []
  unfold ExecShape at hsh
  unfold execM at *
  refine ⟨fun hE => ?_, fun m hm => ?_, ?_⟩
  · rcases hsh with ⟨hs', _⟩ | ⟨⟨m, hres⟩, _⟩ | ⟨hres, _⟩ | ⟨⟨p, hres⟩, _⟩
    · exact hs'
    · rcases hE with hh | ⟨m', hh⟩ | ⟨m', hh⟩ <;> rw [hh] at hres <;>
        simp at hres
    · rcases hE with hh | ⟨m', hh⟩ | ⟨m', hh⟩ <;> rw [hh] at hres <;>
        simp at hres
    · rcases hE with hh | ⟨m', hh⟩ | ⟨m', hh⟩ <;> rw [hh] at hres <;>
        simp at hres
  · rcases hsh with ⟨hs', _⟩ | ⟨⟨m', hres⟩, r, hs'⟩ | ⟨hres, _⟩ |
      ⟨⟨p, hres⟩, _⟩
    · rw [hs']
      exact ⟨rfl, rfl⟩
    · rw [hs']
      exact ⟨rfl, rfl⟩
    · rw [hm] at hres
      simp at hres
    · rw [hm] at hres
      simp at hres
  · have hq := head_colon_ne_quit hc
    simp [readIter, hq.1, hq.2, hc]

theorem c4_reported_frame_witness :
    (execM ⟨[], 0, 0, [], []⟩ ('x' :: []) [ToolRes.importsEOF]).sess =
      (⟨[], 0, 0, [], []⟩ : GoSess) ∧
    (readIter ⟨[], 0, 0, [], []⟩ true [] [(":true\n").toList] []
        [ShellRes.okRun []]).2.1 =
      (readIter ⟨[], 0, 0, [], []⟩ true [] [] [] []).2.1 :=
  ⟨(c4_reported_frame ⟨[], 0, 0, [], []⟩ ('x' :: []) [ToolRes.importsEOF]
      true [] ((":true\n").toList) [] [] (ShellRes.okRun []) []
      (by decide)).1 (Or.inl (by decide)),
    (c4_reported_frame ⟨[], 0, 0, [], []⟩ ('x' :: []) [ToolRes.importsEOF]
      true [] ((":true\n").toList) [] [] (ShellRes.okRun []) []
      (by decide)).2.2⟩

/-- An unused-binding compile failure, as `go run` reports it. -/
def unusedOut : List Char :=
  ("./main.go:5:2: declared and not used: x\n").toList

/-- The toolchain answer carrying `unusedOut`. -/
def unusedRes : ToolRes := ToolRes.runRes true unusedOut

/-- C7 counterexample: eleven consecutive unused-binding failures —
past any cap of ten — leave the loop still rerunning (twelve programs
assembled, no fatal-for-this-statement error returned). -/
theorem c7_retry_cap_cex :
    (execM ⟨[], 0, 0, [], []⟩ (("x := 1").toList)
      (List.replicate 11 unusedRes)).res = ExecRes.noRes ∧
    (execM ⟨[], 0, 0, [], []⟩ (("x := 1").toList)
      (List.replicate 11 unusedRes)).writes.length = 12 :=
  ⟨by decide, by decide⟩

/-- C7 (amended): the assemble-run-fix loop has no retry cap at all —
for every `n`, a run of `n` unused-binding failures makes it assemble
`n + 1` programs and keep going, with the session untouched. -/
theorem c7_unbounded_retry (n : Nat) (s : GoSess) (inp fixes : List Char) :
    (execLoop s inp fixes (List.replicate n unusedRes)).res =
      ExecRes.noRes ∧
    (execLoop s inp fixes (List.replicate n unusedRes)).sess = s ∧
    (execLoop s inp fixes (List.replicate n unusedRes)).writes.length =
      n + 1 := by
  induction n generalizing fixes with
  | zero => exact ⟨rfl, rfl, rfl⟩
  | succ k ih =>
    have hfx : collectFixes unusedOut ≠ [] := by decide
    have hpre : exitStatusMark.isPrefixOf
        (lastLine (splitNL (trimSuffixNL unusedOut))) = false := by decide
    have ihk := ih (fixes ++ collectFixes unusedOut)
    simp only [unusedRes] at ihk
    refine ⟨?_, ?_, ?_⟩ <;>
      simp [List.replicate_succ, execLoop, unusedRes, hpre, hfx, ihk.1,
        ihk.2.1, ihk.2.2]

/-- C5 counterexample: after an unused-binding failure is auto-fixed
and the rerun succeeds, the history entry is the candidate alone — the
synthesized discard statement appears in the assembled program (the
last write contains an underscore byte) but never in the history
buffer, so candidate and fixes are *not* folded into one entry. -/
theorem c5_fold_cex :
    (execM ⟨[], 0, 0, [], []⟩ (("x := 41").toList)
      [unusedRes, ToolRes.runRes false (("\x00igo:EOF\n").toList)]).res =
      ExecRes.ok [] ∧
    (execM ⟨[], 0, 0, [], []⟩ (("x := 41").toList)
      [unusedRes, ToolRes.runRes false (("\x00igo:EOF\n").toList)]).sess.usr =
      strBytes (("x := 41\n").toList) ∧
    95 ∉ (execM ⟨[], 0, 0, [], []⟩ (("x := 41").toList)
      [unusedRes, ToolRes.runRes false (("\x00igo:EOF\n").toList)]).sess.usr ∧
    95 ∈ ((execM ⟨[], 0, 0, [], []⟩ (("x := 41").toList)
      [unusedRes, ToolRes.runRes false
        (("\x00igo:EOF\n").toList)]).writes.getLast?.getD []) :=
  ⟨by decide, by decide, by decide, by decide⟩

/-- C5 (amended): when the fix loop ends in success only the candidate
statement (with its terminating newline) is appended to history — the
synthesized fixes live solely in the assembled program text; when a
retried run fails for another reason the accumulated fixes are
likewise discarded (they reach no session field) and that failing
run's own error is reported: a compile failure with no unused-binding
diagnostic is reported verbatim with the session unchanged, while a
runtime failure reports the delta-extracted error and — as with any
runtime error — leaves history and the shown-line counter unchanged
but overwrites the trailing remainder. -/
theorem c5_fix_loop (s : GoSess) (inp fixes : List Char) (n : Nat) :
    (∀ (dr : List Char × List Char) (okOut : List Char),
      newLinesFn s.frm okOut = some dr →
      (execLoop s inp fixes
        (List.replicate n unusedRes ++ [ToolRes.runRes false okOut])).res =
        ExecRes.ok (trimSuffixNL dr.1) ∧
      (execLoop s inp fixes
        (List.replicate n unusedRes ++
          [ToolRes.runRes false okOut])).sess.usr =
        s.usr ++ strBytes inp) ∧
    (∀ bad : List Char, collectFixes bad = [] →
      exitStatusMark.isPrefixOf (lastLine (splitNL (trimSuffixNL bad))) =
        false →
      (execLoop s inp fixes
        (List.replicate n unusedRes ++ [ToolRes.runRes true bad])).res =
        ExecRes.errCompile (trimSuffixNL bad) ∧
      (execLoop s inp fixes
        (List.replicate n unusedRes ++ [ToolRes.runRes true bad])).sess =
        s) ∧
    (∀ (dr : List Char × List Char) (bad : List Char),
      exitStatusMark.isPrefixOf (lastLine (splitNL (trimSuffixNL bad))) =
        true →
      newLinesFn s.frm bad = some dr →
      (execLoop s inp fixes
        (List.replicate n unusedRes ++ [ToolRes.runRes true bad])).res =
        ExecRes.errRuntime (trimSuffixNL dr.1) ∧
      (execLoop s inp fixes
        (List.replicate n unusedRes ++ [ToolRes.runRes true bad])).sess =
        { s with rem := dr.2 }) := by
  induction n generalizing fixes with
  | zero =>
    refine ⟨fun dr okOut hnl => ?_, fun bad h1 h2 => ?_,
      fun dr bad h1 hnl => ?_⟩
    · simp [execLoop, hnl]
    · simp [execLoop, h1, h2]
    · simp [execLoop, h1, hnl]
  | succ k ih =>
    have hfx : collectFixes unusedOut ≠ [] := by decide
    have hpre : exitStatusMark.isPrefixOf
        (lastLine (splitNL (trimSuffixNL unusedOut))) = false := by decide
    refine ⟨fun dr okOut hnl => ?_, fun bad h1 h2 => ?_,
      fun dr bad h1 hnl => ?_⟩
    · have hk := (ih (fixes ++ collectFixes unusedOut)).1 dr okOut hnl
      simp only [unusedRes] at hk
      simpa [List.replicate_succ, execLoop, unusedRes, hpre, hfx] using hk
    · have hk := (ih (fixes ++ collectFixes unusedOut)).2.1 bad h1 h2
      simp only [unusedRes] at hk
      simpa [List.replicate_succ, execLoop, unusedRes, hpre, hfx] using hk
    · have hk := (ih (fixes ++ collectFixes unusedOut)).2.2 dr bad h1 hnl
      simp only [unusedRes] at hk
      simpa [List.replicate_succ, execLoop, unusedRes, hpre, hfx] using hk

theorem c5_fix_loop_witness :
    ((execLoop ⟨[], 0, 0, [], []⟩ (("x := 41\n").toList) []
      (List.replicate 1 unusedRes ++
        [ToolRes.runRes false (("\x00igo:EOF\n").toList)])).res =
      ExecRes.ok (trimSuffixNL (([] : List Char), ([] : List Char)).1) ∧
    (execLoop ⟨[], 0, 0, [], []⟩ (("x := 41\n").toList) []
      (List.replicate 1 unusedRes ++
        [ToolRes.runRes false (("\x00igo:EOF\n").toList)])).sess.usr =
      ([] : List Nat) ++ strBytes (("x := 41\n").toList)) ∧
    (execLoop ⟨[], 0, 0, [], ('z' :: '\n' :: [])⟩ (("x\n").toList) []
      (List.replicate 1 unusedRes ++
        [ToolRes.runRes true (("boom\nexit status 1\n").toList)])).res =
      ExecRes.errRuntime
        (trimSuffixNL ((("boom\nexit status 1\n").toList),
          ([] : List Char)).1) ∧
    (execLoop ⟨[], 0, 0, [], ('z' :: '\n' :: [])⟩ (("x\n").toList) []
      (List.replicate 1 unusedRes ++
        [ToolRes.runRes true (("boom\nexit status 1\n").toList)])).sess =
      { (⟨[], 0, 0, [], ('z' :: '\n' :: [])⟩ : GoSess) with
        rem := ((("boom\nexit status 1\n").toList), ([] : List Char)).2 } :=
  ⟨(c5_fix_loop ⟨[], 0, 0, [], []⟩ (("x := 41\n").toList) [] 1).1
    (([] : List Char), ([] : List Char)) (("\x00igo:EOF\n").toList)
    (by decide),
   (c5_fix_loop ⟨[], 0, 0, [], ('z' :: '\n' :: [])⟩ (("x\n").toList) []
      1).2.2
    ((("boom\nexit status 1\n").toList), ([] : List Char))
    (("boom\nexit status 1\n").toList) (by decide) (by decide)⟩

/-- C6 counterexample: the continuation line is appended after
`TrimSpace` with no separator, so the retried (and, on success,
recorded) statement text is the two lines joined with *no* intervening
newline. -/
theorem c6_newline_cex :
    (runSession ⟨[], 0, 0, [], []⟩ [("x :=\n").toList, ("41\n").toList]
      [ToolRes.importsEOF,
        ToolRes.runRes false (("\x00igo:EOF\n").toList)] []).2.1.usr =
      strBytes (("x :=41\n").toList) ∧
    strBytes (("x :=41\n").toList) ≠ strBytes (("x :=\n41\n").toList) :=
  ⟨by decide, by decide⟩

/-- C6 (amended): on the incomplete-statement signal the loop prints
nothing (no error, no fresh prompt) and retries the pipeline on the
pending text directly concatenated with the whitespace-trimmed next
line — the intervening newline is *not* preserved. -/
theorem c6_continuation (s : GoSess) (pb : Bool) (line inp : List Char)
    (rest : List (List Char)) (ts : List ToolRes) (hs : List ShellRes)
    (hq1 : trimSpace inp ≠ ('.' :: 'q' :: 'u' :: 'i' :: 't' :: []))
    (hq2 : trimSpace inp ≠ ('.' :: 'e' :: 'x' :: 'i' :: 't' :: []))
    (hc : (trimSpace inp).head? ≠ some ':')
    (he : (execM s (line ++ trimSpace inp) ts).res = ExecRes.errEOF) :
    readIter s pb line (inp :: rest) ts hs =
      ((readIter s false (line ++ trimSpace inp) rest
          (execM s (line ++ trimSpace inp) ts).rest hs).1,
        (readIter s false (line ++ trimSpace inp) rest
          (execM s (line ++ trimSpace inp) ts).rest hs).2.1,
        (if pb then [Ev.prompt] else []) ++
          (readIter s false (line ++ trimSpace inp) rest
            (execM s (line ++ trimSpace inp) ts).rest hs).2.2) := by
  have hsess : (execM s (line ++ trimSpace inp) ts).sess = s := by
    have hsh := execLoop_shape ts s ((line ++ trimSpace inp) ++ ['\n']) []
    unfold ExecShape at hsh
    unfold execM at he ⊢
    rcases hsh with ⟨hs', _⟩ | ⟨⟨m, hres⟩, _⟩ | ⟨hres, _⟩ | ⟨⟨p, hres⟩, _⟩
    · exact hs'
    · rw [he] at hres
      simp at hres
    · rw [he] at hres
      simp at hres
    · rw [he] at hres
      simp at hres
  simp [readIter, hq1, hq2, hc, he, hsess]

theorem c6_continuation_witness :
    readIter ⟨[], 0, 0, [], []⟩ true [] [("x :=\n").toList]
        [ToolRes.importsEOF] [] =
      ((readIter ⟨[], 0, 0, [], []⟩ false
          ([] ++ trimSpace (("x :=\n").toList)) []
          (execM ⟨[], 0, 0, [], []⟩
            ([] ++ trimSpace (("x :=\n").toList))
            [ToolRes.importsEOF]).rest []).1,
        (readIter ⟨[], 0, 0, [], []⟩ false
          ([] ++ trimSpace (("x :=\n").toList)) []
          (execM ⟨[], 0, 0, [], []⟩
            ([] ++ trimSpace (("x :=\n").toList))
            [ToolRes.importsEOF]).rest []).2.1,
        (if true then [Ev.prompt] else []) ++
          (readIter ⟨[], 0, 0, [], []⟩ false
            ([] ++ trimSpace (("x :=\n").toList)) []
            (execM ⟨[], 0, 0, [], []⟩
              ([] ++ trimSpace (("x :=\n").toList))
              [ToolRes.importsEOF]).rest []).2.2) :=
  c6_continuation ⟨[], 0, 0, [], []⟩ true [] (("x :=\n").toList) []
    [ToolRes.importsEOF] []
    (by decide) (by decide) (by decide) (by decide)

/-- C8 counterexample: plain end-of-input is *not* a status-0 exit —
`session.run` wraps the read failure in an error, and `main` exits
with status 1. -/
theorem c8_eof_exit_cex :
    (runSession ⟨[], 0, 0, [], []⟩ [] [] []).1 = RunOut.readErr ∧
    mainExitCode false RunOut.readErr = some 1 ∧
    (some 1 : Option Nat) ≠ some 0 :=
  ⟨rfl, rfl, by decide⟩

/-- C8 (amended): the process exits 0 only on a quit token; exhausting
the input stream is a read error and exits 1, as does every fatal
startup error. -/
theorem c8_exit_codes :
    (∀ o, mainExitCode true o = some 1) ∧
    mainExitCode false RunOut.quit = some 0 ∧
    mainExitCode false RunOut.readErr = some 1 ∧
    (∀ (s : GoSess) (pb : Bool) (line : List Char) (ts : List ToolRes)
      (hs : List ShellRes),
      (readIter s pb line [] ts hs).1 = RunOut.readErr) ∧
    (∀ (s : GoSess) (rest : List (List Char)) (ts : List ToolRes)
      (hs : List ShellRes),
      (runSession s ((".quit\n").toList :: rest) ts hs).1 =
        RunOut.quit) := by
  have hq : trimSpace ('.' :: 'q' :: 'u' :: 'i' :: 't' :: '\n' :: []) =
      ('.' :: 'q' :: 'u' :: 'i' :: 't' :: []) := by decide
  refine ⟨fun o => rfl, rfl, rfl, fun s pb line ts hs => rfl,
    fun s rest ts hs => ?_⟩
  simp [runSession, readIter, hq]

end Igo
